import Mathlib

/-!
Verification development for the SFTP-Sync-Manager repository.

The definitions below are a shallow embedding of the Python sources:
ignore_parser.py (`IgnoreRules.should_ignore` and the stdlib `fnmatch`
glob matcher it calls), sync_worker.py (`_plan_actions`, `_files_differ`,
`_build_snapshot`, `_execute_action`, `_sync_cycle`) and storage.py
(`save_sync_state`, `load_sync_state`).

Modelling conventions:
* Python `str` is Lean `String`; all operations are defined over the
  underlying character list so they evaluate by kernel reduction.
* Python `float` (mtimes) is embedded as `ℚ`, Python `int` (sizes,
  connection ids, stored 0/1 flags) as `ℤ`.
* Python dicts are association lists `List (String × α)` read through
  `lookupD`; dicts built by the code never hold a key twice.
* Effectful steps of a sync cycle (SFTP open, remote listing, per-action
  execution) are passed in as `Except`/oracle values, and the cycle
  returns the sequence of status events, the log entries appended, the
  state it saved (if any) and the exception it let escape (if any).
-/

/-- Lexicographic comparison of character lists by code point, the order
Python uses to compare strings (`sorted` on `str`). -/
def charListLe : List Char → List Char → Bool
  | [], _ => true
  | _ :: _, [] => false
  | a :: as, b :: bs =>
      if a.toNat < b.toNat then true
      else if b.toNat < a.toNat then false
      else charListLe as bs

/-- Python string `<=` as a relation on Lean strings. -/
def strRel : String → String → Prop := fun a b => charListLe a.data b.data = true

instance : DecidableRel strRel := fun a b => instDecidableEqBool (charListLe a.data b.data) true

/-- Python `s.lstrip(cs)`: drop leading characters belonging to `cs`. -/
def lstripSet (cs : List Char) (s : String) : String :=
  String.mk (s.data.dropWhile (fun c => cs.contains c))

/-- Python `s.rstrip(cs)`: drop trailing characters belonging to `cs`. -/
def rstripSet (cs : List Char) (s : String) : String :=
  String.mk ((s.data.reverse.dropWhile (fun c => cs.contains c)).reverse)

/-- Auxiliary for `strStartsWith`. -/
def charListStartsWith : List Char → List Char → Bool
  | _, [] => true
  | [], _ :: _ => false
  | a :: as, b :: bs => a = b && charListStartsWith as bs

/-- Python `s.startswith(t)`. -/
def strStartsWith (s t : String) : Bool := charListStartsWith s.data t.data

/-- Python `s.endswith(t)`. -/
def strEndsWith (s t : String) : Bool := charListStartsWith s.data.reverse t.data.reverse

/-- Python `s.replace(old, new)` for single-character `old`/`new`
(`relative_path.replace("\\", "/")` in `should_ignore`). -/
def strReplaceChar (oldc newc : Char) (s : String) : String :=
  String.mk (s.data.map (fun c => if c = oldc then newc else c))

/-- Python `s.split(sep)[-1]` for a single-character separator: the part of
`s` after its last occurrence of `sep` (the whole of `s` if absent). -/
def lastComponent (sep : Char) (s : String) : String :=
  String.mk ((s.data.reverse.takeWhile (fun c => ¬ c = sep)).reverse)

/-- Python `s[1:]`. -/
def strDropOne (s : String) : String := String.mk s.data.tail

/-- Scan a character-class body up to the closing `]`: returns the class
characters and the remainder of the pattern, or `none` when the class is
unterminated (CPython `fnmatch.translate` then treats `[` as a literal). -/
def splitAtRB : List Char → Option (List Char × List Char)
  | [] => none
  | c :: rest =>
      if c = ']' then some ([], rest)
      else match splitAtRB rest with
        | none => none
        | some (a, b) => some (c :: a, b)

theorem splitAtRB_length : ∀ {l a b}, splitAtRB l = some (a, b) → b.length < l.length := by
  intro l
  induction l with
  | nil => intro a b h; simp [splitAtRB] at h
  | cons c rest ih =>
      intro a b h
      by_cases hc : c = ']'
      · simp [splitAtRB, hc] at h
        simp [← h.2]
      · simp [splitAtRB, hc] at h
        rcases hrec : splitAtRB rest with _ | ⟨a', b'⟩
        · rw [hrec] at h; simp at h
        · rw [hrec] at h
          simp at h
          have := ih hrec
          rw [← h.2]
          simpa using Nat.lt_succ_of_lt this

/-- Character-class body ended by `]`, with a leading `]` kept as a literal
member (CPython scans one position past a `]` that immediately follows the
opening of the class). -/
def parseClassBody (ps : List Char) : Option (List Char × List Char) :=
  match ps with
  | [] => none
  | c :: t =>
      if c = ']' then (splitAtRB t).map (fun x => (']' :: x.1, x.2))
      else splitAtRB (c :: t)

/-- Parse a `[...]` class right after the opening bracket: negation flag
(leading `!`), member characters, and the rest of the pattern. -/
def parseClass (ps : List Char) : Option (Bool × List Char × List Char) :=
  match ps with
  | [] => none
  | c :: t =>
      if c = '!' then (parseClassBody t).map (fun x => (true, x.1, x.2))
      else (parseClassBody (c :: t)).map (fun x => (false, x.1, x.2))

theorem parseClassBody_length {ps cls rest} (h : parseClassBody ps = some (cls, rest)) :
    rest.length < ps.length := by
  match ps with
  | [] => simp [parseClassBody] at h
  | c :: t =>
      by_cases hc : c = ']'
      · simp [parseClassBody, hc] at h
        rcases hs : splitAtRB t with _ | ⟨a, b⟩
        · rw [hs] at h; simp at h
        · rw [hs] at h; simp at h
          have := splitAtRB_length hs
          obtain ⟨a1, ⟨ha, hb2⟩, hcls⟩ := h
          rw [← hb2]
          simp only [List.length_cons]
          omega
      · simp [parseClassBody, hc] at h
        simpa using splitAtRB_length h

theorem parseClass_length {ps neg cls rest} (h : parseClass ps = some (neg, cls, rest)) :
    rest.length < ps.length := by
  match ps with
  | [] => simp [parseClass] at h
  | c :: t =>
      by_cases hc : c = '!'
      · simp [parseClass, hc] at h
        rcases hb : parseClassBody t with _ | ⟨a, b⟩
        · rw [hb] at h; simp at h
        · rw [hb] at h; simp at h
          have := parseClassBody_length hb
          rw [← h.1.2]
          simp only [List.length_cons]
          omega
      · simp [parseClass, hc] at h
        rcases hb : parseClassBody (c :: t) with _ | ⟨a, b⟩
        · rw [hb] at h; simp at h
        · rw [hb] at h; simp at h
          have := parseClassBody_length hb
          rw [← h.1.2]
          exact this

/-- Membership of a character in a class body: `a-b` denotes a code-point
range, other characters are literal members. -/
def matchClass : List Char → Char → Bool
  | a :: '-' :: b :: rest, c =>
      (a.toNat ≤ c.toNat && c.toNat ≤ b.toNat) || matchClass rest c
  | a :: rest, c => (a = c) || matchClass rest c
  | [], _ => false

/-- One step of glob matching, recursing on an explicit fuel counter.
Every recursive call strictly decreases `p.length + s.length`, so any fuel
above that measure yields the same answer (`globMatchF_irrel`); the
0-fuel branch is never reached from `globMatch`. -/
def globMatchF : Nat → List Char → List Char → Bool
  | 0, _, _ => false
  | fuel + 1, p, s =>
      match p, s with
      | [], [] => true
      | [], _ :: _ => false
      | '*' :: ps, s =>
          globMatchF fuel ps s ||
            (match s with
             | [] => false
             | _ :: s' => globMatchF fuel ('*' :: ps) s')
      | '?' :: ps, _ :: s' => globMatchF fuel ps s'
      | '?' :: _, [] => false
      | '[' :: ps, s =>
          (match parseClass ps, s with
           | some (neg, cls, rest), c :: s' =>
               (matchClass cls c != neg) && globMatchF fuel rest s'
           | some _, [] => false
           | none, c :: s' => ('[' = c) && globMatchF fuel ps s'
           | none, [] => false)
      | c :: ps, c' :: s' => (c = c') && globMatchF fuel ps s'
      | _ :: _, [] => false

/-- CPython `fnmatch` glob matching of a name against a pattern, both as
character lists: `*` matches any run, `?` any single character, `[...]` a
character class (`!` negates, unterminated `[` is a literal), anything else
matches literally. -/
def globMatch (p s : List Char) : Bool := globMatchF (p.length + s.length + 1) p s

theorem globMatchF_irrel :
    ∀ f g p s, p.length + s.length < f → p.length + s.length < g →
      globMatchF f p s = globMatchF g p s := by
  intro f
  induction f with
  | zero => intro g p s hf; omega
  | succ f ih =>
      intro g p s hf hg
      match g with
      | 0 => omega
      | g + 1 =>
        match p, s with
        | [], [] => rfl
        | [], _ :: _ => rfl
        | c :: ps, s =>
            by_cases hstar : c = '*'
            · subst hstar
              have h1 : globMatchF f ps s = globMatchF g ps s := by
                apply ih <;> simp at hf hg ⊢ <;> omega
              match s with
              | [] => simp [globMatchF, h1]
              | _ :: s' =>
                  have h2 : globMatchF f ('*' :: ps) s' = globMatchF g ('*' :: ps) s' := by
                    apply ih <;> simp at hf hg ⊢ <;> omega
                  simp [globMatchF, h1, h2]
            · by_cases hq : c = '?'
              · subst hq
                match s with
                | [] => simp [globMatchF]
                | _ :: s' =>
                    have h1 : globMatchF f ps s' = globMatchF g ps s' := by
                      apply ih <;> simp at hf hg ⊢ <;> omega
                    simp [globMatchF, h1]
              · by_cases hb : c = '['
                · subst hb
                  rcases hpc : parseClass ps with _ | ⟨neg, cls, rest⟩
                  · match s with
                    | [] => simp [globMatchF, hpc]
                    | c' :: s' =>
                        have h1 : globMatchF f ps s' = globMatchF g ps s' := by
                          apply ih <;> simp at hf hg ⊢ <;> omega
                        simp [globMatchF, hpc, h1]
                  · have hlen := parseClass_length hpc
                    match s with
                    | [] => simp [globMatchF, hpc]
                    | c' :: s' =>
                        have h1 : globMatchF f rest s' = globMatchF g rest s' := by
                          apply ih <;> simp at hf hg ⊢ <;> omega
                        simp [globMatchF, hpc, h1]
                · match s with
                  | [] => simp [globMatchF, hstar, hq, hb]
                  | c' :: s' =>
                      have h1 : globMatchF f ps s' = globMatchF g ps s' := by
                        apply ih <;> simp at hf hg ⊢ <;> omega
                      simp [globMatchF, hstar, hq, hb, h1]

/-- Python `fnmatch.fnmatch(name, pat)` on a POSIX system (where case
normalization is the identity). -/
def fnmatch (name pat : String) : Bool := globMatch pat.data name.data

/-- Body of the `for pattern in self.patterns` loop of
`IgnoreRules.should_ignore` (ignore_parser.py lines 34-50): fold one
pattern over the running `matched` flag for the normalized relative path
`rel`. -/
def applyRule (rel : String) (matched : Bool) (pattern : String) : Bool :=
  let negate := strStartsWith pattern "!"
  let rule0 := if negate then strDropOne pattern else pattern
  let rule1 := if strStartsWith rule0 "/" then lstripSet ['/'] rule0 else rule0
  if strEndsWith rule1 "/" then
    let rule := rstripSet ['/'] rule1
    if strStartsWith rel rule then !negate else matched
  else
    if fnmatch rel rule1 || fnmatch (lastComponent '/' rel) rule1 then !negate
    else matched

/-- Path normalization at the top of `IgnoreRules.should_ignore`
(ignore_parser.py lines 29-31): backslashes to slashes, strip leading `.`
and `/` characters, and strip trailing slashes when more than one
character remains. -/
def normalizeRel (relative_path : String) : String :=
  let rel0 := strReplaceChar '\\' '/' relative_path
  let rel1 := lstripSet ['.', '/'] rel0
  if strEndsWith rel1 "/" && decide (1 < rel1.data.length) then rstripSet ['/'] rel1
  else rel1

/-- `IgnoreRules.should_ignore` (ignore_parser.py lines 28-51): the last
matching pattern decides; a `!` pattern un-ignores. -/
def should_ignore (patterns : List String) (relative_path : String) : Bool :=
  patterns.foldl (applyRule (normalizeRel relative_path)) false

example : should_ignore ["*.log"] "a.log" = true := by decide
example : should_ignore ["*.log", "!keep.log"] "keep.log" = false := by decide
example : should_ignore ["/secret.txt"] "sub/secret.txt" = true := by decide
example : should_ignore ["build/"] "build/x/y.o" = true := by decide
example : should_ignore ["[ab].txt"] "b.txt" = true := by decide
example : should_ignore ["[!ab].txt"] "c.txt" = true := by decide
example : should_ignore ["sub/*.log"] "sub/a.log" = true := by decide
example : should_ignore [] "" = false := by decide


/-- Per-file metadata of one snapshot entry, `{"mtime": ..., "size": ...}`
as recorded by `_scan_local` / `SFTPClient.list_recursive`. -/
structure Meta where
  mtime : ℚ
  size : ℤ
deriving DecidableEq, Repr

/-- One prior-state record as returned by `Storage.load_sync_state`
(storage.py lines 211-218), restricted to the fields `_plan_actions`
reads. -/
structure StateEntry where
  local_exists : Bool
  local_mtime : Option ℚ
  remote_exists : Bool
  remote_mtime : Option ℚ
deriving DecidableEq, Repr

/-- Python `d.get(k)` on a dict modelled as an association list. -/
def lookupD {α : Type} (m : List (String × α)) (k : String) : Option α :=
  (m.find? (fun kv => decide (kv.1 = k))).map (fun kv => kv.2)

/-- Keys of a dict. -/
def keysOf {α : Type} (m : List (String × α)) : List String := m.map (fun kv => kv.1)

/-- Python `abs` on an integer. -/
def intAbs (x : ℤ) : ℤ := if x < 0 then -x else x

/-- Python `abs` on a float (embedded as a rational). -/
def ratAbs (x : ℚ) : ℚ := if x < 0 then -x else x

/-- Rational subtraction written out on numerators and denominators so that
it evaluates by kernel reduction (the library subtraction on `ℚ` is marked
irreducible); `ratSub_eq` identifies it with `a - b`. -/
def ratSub (a b : ℚ) : ℚ :=
  Rat.normalize (a.num * (b.den : ℤ) - b.num * (a.den : ℤ)) (a.den * b.den)
    (Nat.mul_ne_zero a.den_nz b.den_nz)

theorem ratSub_eq (a b : ℚ) : ratSub a b = a - b := by
  have ha : (a.den : ℤ) ≠ 0 := Int.ofNat_ne_zero.mpr a.den_nz
  have hb : (b.den : ℤ) ≠ 0 := Int.ofNat_ne_zero.mpr b.den_nz
  rw [ratSub, Rat.normalize_eq_mkRat, Rat.mkRat_eq_divInt]
  push_cast
  rw [← Rat.divInt_sub_divInt _ _ ha hb, Rat.num_divInt_den, Rat.num_divInt_den]

theorem ratAbs_eq (x : ℚ) : ratAbs x = |x| := by
  by_cases h : x < 0
  · rw [ratAbs, if_pos h, abs_of_neg h]
  · rw [ratAbs, if_neg h, abs_of_nonneg (le_of_not_lt h)]

theorem intAbs_eq (x : ℤ) : intAbs x = |x| := by
  by_cases h : x < 0
  · rw [intAbs, if_pos h, abs_of_neg h]
  · rw [intAbs, if_neg h, abs_of_nonneg (le_of_not_lt h)]

/-- `SyncWorker._files_differ` (sync_worker.py lines 219-222):
`abs(size difference) > 0 or abs(mtime difference) > 1.0`. -/
def files_differ (local_meta remote_meta : Meta) : Bool :=
  decide (0 < intAbs (local_meta.size - remote_meta.size)) ||
    decide (1 < ratAbs (ratSub local_meta.mtime remote_meta.mtime))

/-- The planner's equality test in the spec's words: `files_differ` is
false exactly when the sizes are identical and the absolute mtime
difference is at most one second. -/
theorem files_differ_false_iff (l r : Meta) :
    files_differ l r = false ↔ l.size = r.size ∧ |l.mtime - r.mtime| ≤ 1 := by
  rw [files_differ]
  simp only [Bool.or_eq_false_iff, decide_eq_false_iff_not, not_lt]
  rw [ratSub_eq, ratAbs_eq, intAbs_eq]
  constructor
  · rintro ⟨h1, h2⟩
    refine ⟨?_, h2⟩
    have := abs_nonneg (l.size - r.size)
    have : |l.size - r.size| = 0 := le_antisymm h1 this
    have := abs_eq_zero.mp this
    omega
  · rintro ⟨h1, h2⟩
    refine ⟨?_, h2⟩
    simp [h1]

/-- Loop body of `SyncWorker._plan_actions` (sync_worker.py lines 190-216):
the action (if any) planned for one path. -/
def planAction (allow_delete local_priority : Bool)
    (local_files remote_files : List (String × Meta))
    (last_state : List (String × StateEntry)) (path : String) :
    Option String :=
  match lookupD local_files path, lookupD remote_files path with
  | some local_meta, some remote_meta =>
      if files_differ local_meta remote_meta then
        if local_priority || decide (remote_meta.mtime ≤ local_meta.mtime) then
          some "upload"
        else some "download"
      else none
  | some _, none =>
      (match lookupD last_state path with
       | some prev =>
           if prev.local_exists && prev.remote_exists then
             if allow_delete then some "delete_local"
             else some "upload"
           else some "upload"
       | none => some "upload")
  | none, some _ =>
      (match lookupD last_state path with
       | some prev =>
           if prev.local_exists && prev.remote_exists then
             if allow_delete then some "delete_remote"
             else some "download"
           else some "download"
       | none => some "download")
  | none, none => none

/-- The `(action, path)` tuple appended for one path, if any. -/
def planStep (allow_delete local_priority : Bool)
    (local_files remote_files : List (String × Meta))
    (last_state : List (String × StateEntry)) (path : String) :
    Option (String × String) :=
  (planAction allow_delete local_priority local_files remote_files last_state path).map
    (fun a => (a, path))

/-- The union `set(local) | set(remote)` of snapshot keys. -/
def allPathsOf (local_files remote_files : List (String × Meta)) : List String :=
  (keysOf local_files ++ keysOf remote_files).dedup

/-- The iteration order of `_plan_actions` (sync_worker.py line 185):
`list(dirty) + sorted(all_paths - dirty)`.  `dirtyList` is the enumeration
in which Python happens to iterate the `dirty` set — the language fixes its
membership but not its order. -/
def orderedPaths (local_files remote_files : List (String × Meta))
    (dirtyList : List String) : List String :=
  dirtyList ++
    List.insertionSort strRel
      ((allPathsOf local_files remote_files).filter (fun p => decide (¬ p ∈ dirtyList)))

/-- `SyncWorker._plan_actions` (sync_worker.py lines 177-217). -/
def plan_actions (allow_delete local_priority : Bool)
    (local_files remote_files : List (String × Meta))
    (last_state : List (String × StateEntry))
    (dirtyList : List String) : List (String × String) :=
  (orderedPaths local_files remote_files dirtyList).filterMap
    (planStep allow_delete local_priority local_files remote_files last_state)

/-- `SyncWorker._build_snapshot` (sync_worker.py lines 259-272). -/
def build_snapshot (local_files remote_files : List (String × Meta)) :
    List (String × StateEntry) :=
  (allPathsOf local_files remote_files).map (fun path =>
    (path,
      { local_exists := (lookupD local_files path).isSome
        local_mtime := (lookupD local_files path).map (fun m => m.mtime)
        remote_exists := (lookupD remote_files path).isSome
        remote_mtime := (lookupD remote_files path).map (fun m => m.mtime) }))

/-- The remote-snapshot filter of `_sync_cycle` (sync_worker.py lines
126-130), also the per-file ignore test of `_scan_local` (lines 162-163):
keep only paths that `should_ignore` rejects. -/
def filterIgnored (patterns : List String) (files : List (String × Meta)) :
    List (String × Meta) :=
  files.filter (fun kv => !(should_ignore patterns kv.1))

example :
    plan_actions false false [("a.txt", ⟨100, 10⟩)] [("a.txt", ⟨200, 10⟩)] [] [] =
      [("download", "a.txt")] := by decide

example :
    plan_actions false true [("a.txt", ⟨100, 10⟩)] [("a.txt", ⟨200, 10⟩)] [] [] =
      [("upload", "a.txt")] := by decide

example :
    plan_actions true false [("b.txt", ⟨100, 10⟩)] []
      [("b.txt", ⟨true, some 100, true, some 100⟩)] [] =
      [("delete_local", "b.txt")] := by decide

example :
    plan_actions false false [("b.txt", ⟨100, 10⟩)] []
      [("b.txt", ⟨true, some 100, true, some 100⟩)] [] =
      [("upload", "b.txt")] := by decide

example :
    plan_actions false false [("a.txt", ⟨101, 10⟩)] [("a.txt", ⟨100, 10⟩)] [] [] =
      [] := by decide

example :
    plan_actions false false [("a.txt", ⟨102, 10⟩)] [("a.txt", ⟨100, 10⟩)] [] [] =
      [("upload", "a.txt")] := by decide

example :
    plan_actions true false [] [("c.txt", ⟨100, 10⟩)]
      [("c.txt", ⟨true, some 100, true, some 100⟩)] [] =
      [("delete_remote", "c.txt")] := by decide

example :
    plan_actions true false [("a", ⟨1, 1⟩)] [("b", ⟨2, 2⟩)] [] ["b"] =
      [("download", "b"), ("upload", "a")] := by decide

/-- Python `d[k] = v` on a dict: overwrite in place if the key exists,
otherwise append. -/
def dictAssign {α : Type} (m : List (String × α)) (k : String) (v : α) :
    List (String × α) :=
  if m.any (fun kv => decide (kv.1 = k)) then
    m.map (fun kv => if kv.1 = k then (k, v) else kv)
  else m ++ [(k, v)]

/-- Python `d.pop(k, None)`'s effect on the dict. -/
def dictRemove {α : Type} (m : List (String × α)) (k : String) :
    List (String × α) :=
  m.filter (fun kv => !(decide (kv.1 = k)))

/-- One row of the `sync_state` table (storage.py lines 70-85): the flag
columns are INTEGERs, mtimes are nullable REALs, `hash` a nullable TEXT. -/
structure StateRow where
  connection_id : ℤ
  path : String
  local_exists : ℤ
  local_mtime : Option ℚ
  remote_exists : ℤ
  remote_mtime : Option ℚ
  hash : Option String
deriving DecidableEq, Repr

/-- An entry of the map returned by `Storage.load_sync_state` (storage.py
lines 211-218): the four state fields plus the stored hash. -/
structure LoadedEntry where
  local_exists : Bool
  local_mtime : Option ℚ
  remote_exists : Bool
  remote_mtime : Option ℚ
  hash : Option String
deriving DecidableEq, Repr

/-- `Storage.save_sync_state` (storage.py lines 221-243) acting on the
`sync_state` table: delete every row of this connection, then insert one
row per entry in iteration order.  Entries are the four-field maps produced
by `_build_snapshot`, so `meta.get("hash")` yields NULL and the boolean
flags are stored as `int(...)` 0/1.  `rowOfEntry` is the inserted row,
`save_sync_state` the whole table update. -/
def rowOfEntry (connection_id : ℤ) (pe : String × StateEntry) : StateRow :=
  { connection_id := connection_id
    path := pe.1
    local_exists := if pe.2.local_exists then 1 else 0
    local_mtime := pe.2.local_mtime
    remote_exists := if pe.2.remote_exists then 1 else 0
    remote_mtime := pe.2.remote_mtime
    hash := none }

def save_sync_state (connection_id : ℤ) (entries : List (String × StateEntry))
    (db : List StateRow) : List StateRow :=
  db.filter (fun r => !(decide (r.connection_id = connection_id))) ++
    entries.map (rowOfEntry connection_id)

/-- `Storage.load_sync_state` (storage.py lines 203-219): select the rows
of this connection and rebuild the per-path map, reading the flag columns
back through `bool(...)`.  `entryOfRow` is one row's contribution. -/
def entryOfRow (r : StateRow) : String × LoadedEntry :=
  (r.path,
    { local_exists := decide (¬ r.local_exists = (0 : ℤ))
      local_mtime := r.local_mtime
      remote_exists := decide (¬ r.remote_exists = (0 : ℤ))
      remote_mtime := r.remote_mtime
      hash := r.hash })

def load_sync_state (connection_id : ℤ) (db : List StateRow) :
    List (String × LoadedEntry) :=
  db.filterMap (fun r =>
    if r.connection_id = connection_id then some (entryOfRow r) else none)

/-- The four sync-state fields of a loaded entry, for comparison with the
entry that was saved. -/
def stateFields (e : LoadedEntry) : StateEntry :=
  { local_exists := e.local_exists
    local_mtime := e.local_mtime
    remote_exists := e.remote_exists
    remote_mtime := e.remote_mtime }

/-- Worker status values reported through the status callback. -/
inductive Status where
  | Syncing
  | Running
  | Error (msg : String)
  | Stopped
deriving DecidableEq, Repr

/-- Outcome of one `_execute_action` call (sync_worker.py lines 224-257):
`done` means the body ran to completion (for transfers, `stat` is the
`local_path.stat()` result recorded into the snapshot); `fileError` means
an exception was caught by the handler inside `_execute_action`, which
logs it and continues; `escape` means an exception escaped
`_execute_action` itself (for example from the logging call inside its
handler) and aborts the cycle. -/
inductive ExecOutcome where
  | done (stat : Meta)
  | fileError (msg : String)
  | escape (msg : String)

/-- A log entry: type, path, message (storage.py `add_log`). -/
abbrev LogEntry := String × String × String

/-- The action-execution loop of `_sync_cycle` (sync_worker.py lines
136-137) together with `_execute_action` (lines 224-257): runs the planned
actions in order, mutating the in-memory snapshots on success, logging and
continuing on a caught per-file error, and stopping with the exception when
one escapes.  Returns (escaped exception, local snapshot, remote snapshot,
appended logs). -/
def execActions (exec : String → String → ExecOutcome) :
    List (String × String) → List (String × Meta) → List (String × Meta) →
    List LogEntry →
    Option String × List (String × Meta) × List (String × Meta) × List LogEntry
  | [], lf, rf, logs => (none, lf, rf, logs)
  | (action, path) :: rest, lf, rf, logs =>
      match exec action path with
      | .escape msg => (some msg, lf, rf, logs)
      | .fileError msg => execActions exec rest lf rf (logs ++ [("error", path, msg)])
      | .done stat =>
          if action = "upload" then
            execActions exec rest lf (dictAssign rf path stat)
              (logs ++ [("upload", path, "Uploaded to remote host")])
          else if action = "download" then
            execActions exec rest (dictAssign lf path stat) rf
              (logs ++ [("download", path, "Downloaded from remote host")])
          else if action = "delete_local" then
            execActions exec rest (dictRemove lf path) rf
              (logs ++ [("delete_local", path, "Removed local file after remote delete")])
          else if action = "delete_remote" then
            execActions exec rest lf (dictRemove rf path)
              (logs ++ [("delete_remote", path, "Removed remote file after local delete")])
          else execActions exec rest lf rf logs

/-- Inputs of one `_sync_cycle` (sync_worker.py lines 105-146).  The
effectful steps are supplied as oracles: `scanRes`/`loadRes` are the
results of `_scan_local` and `load_sync_state` (lines 112-113, outside the
`try` block), `openRes` the SFTP session open (line 117), `listRes` the raw
`remote.list_recursive` result (line 128), and `exec` the per-action
outcome of `_execute_action`. -/
structure CycleInput where
  allow_delete : Bool
  local_priority : Bool
  patterns : List String
  dirty : List String
  scanRes : Except String (List (String × Meta))
  loadRes : Except String (List (String × StateEntry))
  openRes : Except String Unit
  listRes : Except String (List (String × Meta))
  exec : String → String → ExecOutcome

/-- Observable outcome of one `_sync_cycle`: the status-callback events in
order, the log entries appended, the sync-state map passed to
`save_sync_state` (or `none` when the cycle did not reach line 145), and
the exception that propagated out of `_sync_cycle` (or `none`). -/
structure CycleResult where
  statusEvents : List Status
  logs : List LogEntry
  savedState : Option (List (String × StateEntry))
  raised : Option String

/-- `SyncWorker._sync_cycle` (sync_worker.py lines 105-146).  The `try`
block spans the session open, the remote listing, planning and the action
loop (lines 116-137); its handler (lines 138-142) reports `Error`, appends
one error log entry and returns without saving.  `_scan_local` (line 112)
and `load_sync_state` (line 113) run before the `try`, so their exceptions
propagate out of the method unhandled. -/
def syncCycle (inp : CycleInput) : CycleResult :=
  match inp.scanRes with
  | .error e => ⟨[Status.Syncing], [], none, some e⟩
  | .ok localSnap =>
    match inp.loadRes with
    | .error e => ⟨[Status.Syncing], [], none, some e⟩
    | .ok lastState =>
      match inp.openRes with
      | .error e => ⟨[Status.Syncing, Status.Error e], [("error", "", e)], none, none⟩
      | .ok _ =>
        match inp.listRes with
        | .error e => ⟨[Status.Syncing, Status.Error e], [("error", "", e)], none, none⟩
        | .ok rawRemote =>
          match execActions inp.exec
              (plan_actions inp.allow_delete inp.local_priority localSnap
                (filterIgnored inp.patterns rawRemote) lastState inp.dirty)
              localSnap (filterIgnored inp.patterns rawRemote) [] with
          | (some e, _, _, logs) =>
              ⟨(if (plan_actions inp.allow_delete inp.local_priority localSnap
                    (filterIgnored inp.patterns rawRemote) lastState inp.dirty).isEmpty
                  then [Status.Syncing] else [Status.Syncing, Status.Syncing]) ++
                  [Status.Error e],
                logs ++ [("error", "", e)], none, none⟩
          | (none, localSnap', remoteSnap', logs) =>
              ⟨(if (plan_actions inp.allow_delete inp.local_priority localSnap
                    (filterIgnored inp.patterns rawRemote) lastState inp.dirty).isEmpty
                  then [Status.Syncing] else [Status.Syncing, Status.Syncing]) ++
                  [Status.Running],
                logs, some (build_snapshot localSnap' remoteSnap'), none⟩

/-- The first exception of a cycle that reaches the handler of the `try`
block: a session-open failure, a listing failure, or an exception escaping
action execution; `none` when the cycle runs to completion (per-file
errors caught inside `_execute_action` included). -/
def cycleFailure (inp : CycleInput) : Option String :=
  match inp.scanRes, inp.loadRes with
  | .ok localSnap, .ok lastState =>
      (match inp.openRes with
       | .error e => some e
       | .ok _ =>
         match inp.listRes with
         | .error e => some e
         | .ok rawRemote =>
             (execActions inp.exec
               (plan_actions inp.allow_delete inp.local_priority localSnap
                 (filterIgnored inp.patterns rawRemote) lastState inp.dirty)
               localSnap (filterIgnored inp.patterns rawRemote) []).1)
  | _, _ => none

theorem lookupD_isSome_iff {α : Type} (m : List (String × α)) (p : String) :
    (lookupD m p).isSome = true ↔ p ∈ keysOf m := by
  induction m with
  | nil => simp [lookupD, keysOf]
  | cons kv t ih =>
      by_cases h : kv.1 = p
      · simp [lookupD, List.find?, h, keysOf]
      · have hfind : List.find? (fun kv => decide (kv.1 = p)) (kv :: t) =
            List.find? (fun kv => decide (kv.1 = p)) t := by
          rw [List.find?]
          simp [h]
        rw [lookupD, hfind]
        rw [lookupD] at ih
        simp only [keysOf, List.map_cons, List.mem_cons]
        rw [keysOf] at ih
        constructor
        · intro hs; exact Or.inr (ih.mp hs)
        · rintro (hp | hp)
          · exact absurd hp.symm h
          · exact ih.mpr hp

theorem mem_orderedPaths (lf rf : List (String × Meta)) (dirty : List String)
    (p : String) :
    p ∈ orderedPaths lf rf dirty ↔ p ∈ dirty ∨ p ∈ allPathsOf lf rf := by
  unfold orderedPaths
  rw [List.mem_append, (List.perm_insertionSort strRel _).mem_iff, List.mem_filter]
  by_cases h : p ∈ dirty <;> simp [h]

theorem mem_plan_actions {ad lp : Bool} {lf rf : List (String × Meta)}
    {st : List (String × StateEntry)} {dirty : List String} {a p : String} :
    (a, p) ∈ plan_actions ad lp lf rf st dirty ↔
      p ∈ orderedPaths lf rf dirty ∧ planAction ad lp lf rf st p = some a := by
  unfold plan_actions planStep
  rw [List.mem_filterMap]
  constructor
  · rintro ⟨q, hq, hstep⟩
    rcases hact : planAction ad lp lf rf st q with _ | act
    · rw [hact] at hstep; simp at hstep
    · rw [hact] at hstep
      simp at hstep
      rcases hstep with ⟨ha, hp⟩
      rw [← hp, ← ha]
      exact ⟨hq, hact⟩
  · rintro ⟨hmem, hact⟩
    exact ⟨p, hmem, by rw [hact]; rfl⟩

theorem charListLe_total : ∀ a b, charListLe a b = true ∨ charListLe b a = true := by
  intro a
  induction a with
  | nil => intro b; left; rfl
  | cons x xs ih =>
      intro b
      cases b with
      | nil => right; rfl
      | cons y ys =>
          by_cases h1 : x.toNat < y.toNat
          · left; simp [charListLe, h1]
          · by_cases h2 : y.toNat < x.toNat
            · right; simp [charListLe, h2]
            · rcases ih ys with h | h
              · left; simp [charListLe, h1, h2, h]
              · right; simp [charListLe, h1, h2, h]

theorem charListLe_trans :
    ∀ a b c, charListLe a b = true → charListLe b c = true → charListLe a c = true := by
  intro a
  induction a with
  | nil => intro b c _ _; rfl
  | cons x xs ih =>
      intro b c hab hbc
      cases b with
      | nil => simp [charListLe] at hab
      | cons y ys =>
          cases c with
          | nil => simp [charListLe] at hbc
          | cons z zs =>
              simp only [charListLe] at hab hbc ⊢
              by_cases hyx : y.toNat < x.toNat
              · rw [if_neg (by omega), if_pos hyx] at hab
                exact Bool.noConfusion hab
              · by_cases hzy : z.toNat < y.toNat
                · rw [if_neg (by omega), if_pos hzy] at hbc
                  exact Bool.noConfusion hbc
                · by_cases hxy : x.toNat < y.toNat
                  · by_cases hyz : y.toNat < z.toNat
                    · rw [if_pos (by omega)]
                    · rw [if_pos (by omega)]
                  · by_cases hyz : y.toNat < z.toNat
                    · rw [if_pos (by omega)]
                    · rw [if_neg (by omega), if_neg (by omega)]
                      rw [if_neg hxy, if_neg hyx] at hab
                      rw [if_neg hyz, if_neg hzy] at hbc
                      exact ih ys zs hab hbc

instance : IsTotal String strRel := ⟨fun a b => charListLe_total a.data b.data⟩

instance : IsTrans String strRel :=
  ⟨fun a b c hab hbc => charListLe_trans a.data b.data c.data hab hbc⟩

theorem planAction_allow_false {lp : Bool} {lf rf : List (String × Meta)}
    {st : List (String × StateEntry)} {p a : String}
    (h : planAction false lp lf rf st p = some a) :
    a = "upload" ∨ a = "download" := by
  unfold planAction at h
  rcases hl : lookupD lf p with _ | l <;> rcases hr : lookupD rf p with _ | r <;>
    rw [hl, hr] at h
  · exact Option.noConfusion h
  · rcases hst : lookupD st p with _ | prev <;> rw [hst] at h
    · right; exact (Option.some_inj.mp h).symm
    · have h' : (if (prev.local_exists && prev.remote_exists) = true then
          (if false = true then some "delete_remote" else some "download")
          else some "download") = some a := h
      split_ifs at h' with h1 h2
      · exact absurd h2 (by simp)
      · right; exact (Option.some_inj.mp h').symm
      · right; exact (Option.some_inj.mp h').symm
  · rcases hst : lookupD st p with _ | prev <;> rw [hst] at h
    · left; exact (Option.some_inj.mp h).symm
    · have h' : (if (prev.local_exists && prev.remote_exists) = true then
          (if false = true then some "delete_local" else some "upload")
          else some "upload") = some a := h
      split_ifs at h' with h1 h2
      · exact absurd h2 (by simp)
      · left; exact (Option.some_inj.mp h').symm
      · left; exact (Option.some_inj.mp h').symm
  · have h' : (if files_differ l r = true then
        (if (lp || decide (r.mtime ≤ l.mtime)) = true then some "upload"
         else some "download")
        else none) = some a := h
    split_ifs at h' with h1 h2
    · left; exact (Option.some_inj.mp h').symm
    · right; exact (Option.some_inj.mp h').symm

/-- C3: with `allow_delete = false` the planner never emits a delete
action for any snapshots, prior state, dirty set or path. -/
theorem claim_C3 (lp : Bool) (lf rf : List (String × Meta))
    (st : List (String × StateEntry)) (dirty : List String) (p : String) :
    ("delete_local", p) ∉ plan_actions false lp lf rf st dirty ∧
      ("delete_remote", p) ∉ plan_actions false lp lf rf st dirty := by
  constructor <;> intro hmem <;> rw [mem_plan_actions] at hmem <;>
    rcases planAction_allow_false hmem.2 with h | h <;> simp at h

theorem lookupD_filterIgnored {pats : List String} {p : String}
    {m : List (String × Meta)} (hig : should_ignore pats p = true) :
    lookupD (filterIgnored pats m) p = none := by
  unfold lookupD
  rw [Option.map_eq_none', List.find?_eq_none]
  intro x hx
  rw [filterIgnored, List.mem_filter] at hx
  intro hxp
  have hx1 : x.1 = p := of_decide_eq_true hxp
  rw [hx1, hig] at hx
  simp at hx

/-- C5: an ignored path can never appear as the key of a planned action,
whatever the raw local tree, raw remote tree, prior state and dirty set
are, because both snapshots pass through the ignore filter before
planning. -/
theorem claim_C5 (ad lp : Bool) (rawLocal rawRemote : List (String × Meta))
    (st : List (String × StateEntry)) (dirty : List String)
    (pats : List String) (p : String) (hig : should_ignore pats p = true)
    (a : String) :
    (a, p) ∉ plan_actions ad lp (filterIgnored pats rawLocal)
      (filterIgnored pats rawRemote) st dirty := by
  intro hmem
  rw [mem_plan_actions] at hmem
  have hl : lookupD (filterIgnored pats rawLocal) p = none := lookupD_filterIgnored hig
  have hr : lookupD (filterIgnored pats rawRemote) p = none := lookupD_filterIgnored hig
  have hpa : planAction ad lp (filterIgnored pats rawLocal)
      (filterIgnored pats rawRemote) st p = none := by
    unfold planAction
    rw [hl, hr]
  rw [hpa] at hmem
  exact Option.noConfusion hmem.2

/-- Witness for C5: with rule `*.log`, a dirty ignored path `a.log` that
even sits in the raw local tree yields no planned action. -/
theorem claim_C5_witness :
    ("upload", "a.log") ∉ plan_actions false false
      (filterIgnored ["*.log"] [("a.log", ⟨1, 1⟩)])
      (filterIgnored ["*.log"] []) [] ["a.log"] :=
  claim_C5 false false [("a.log", ⟨1, 1⟩)] [] [] ["a.log"] ["*.log"] "a.log"
    (by decide) "upload"

/-- Witness for C3: with `allow_delete = false`, a locally-present path
whose prior state had both sides is not deleted. -/
theorem claim_C3_witness :
    ("delete_local", "b") ∉ plan_actions false false [("b", ⟨1, 1⟩)] []
      [("b", ⟨true, some 1, true, some 1⟩)] [] :=
  (claim_C3 false [("b", ⟨1, 1⟩)] [] [("b", ⟨true, some 1, true, some 1⟩)] [] "b").1

/-- C1: for a path present in both snapshots the planner emits nothing when
the files are equal (same size, absolute mtime difference at most 1.0
second); otherwise it emits upload when `local_priority` holds or the local
mtime is at least the remote mtime, and download otherwise. -/
theorem claim_C1 (ad lp : Bool) (lf rf : List (String × Meta))
    (st : List (String × StateEntry)) (dirty : List String) (p : String)
    (l r : Meta) (hl : lookupD lf p = some l) (hr : lookupD rf p = some r) :
    (l.size = r.size ∧ |l.mtime - r.mtime| ≤ 1 →
      ∀ a, (a, p) ∉ plan_actions ad lp lf rf st dirty) ∧
    (¬(l.size = r.size ∧ |l.mtime - r.mtime| ≤ 1) →
      (lp = true ∨ r.mtime ≤ l.mtime →
        ("upload", p) ∈ plan_actions ad lp lf rf st dirty ∧
          ∀ a, (a, p) ∈ plan_actions ad lp lf rf st dirty → a = "upload") ∧
      (lp = false ∧ l.mtime < r.mtime →
        ("download", p) ∈ plan_actions ad lp lf rf st dirty ∧
          ∀ a, (a, p) ∈ plan_actions ad lp lf rf st dirty → a = "download")) := by
  have hdiff := files_differ_false_iff l r
  have hkey : p ∈ keysOf lf := (lookupD_isSome_iff lf p).mp (by rw [hl]; rfl)
  have hall : p ∈ allPathsOf lf rf := by
    unfold allPathsOf
    rw [List.mem_dedup, List.mem_append]
    exact Or.inl hkey
  have hord : p ∈ orderedPaths lf rf dirty := (mem_orderedPaths lf rf dirty p).mpr (Or.inr hall)
  have hpa : planAction ad lp lf rf st p =
      (if files_differ l r = true then
        (if (lp || decide (r.mtime ≤ l.mtime)) = true then some "upload"
         else some "download")
       else none) := by
    unfold planAction
    rw [hl, hr]
  constructor
  · intro heq a hmem
    rw [mem_plan_actions] at hmem
    have hf : files_differ l r = false := hdiff.mpr heq
    rw [hpa] at hmem
    simp [hf] at hmem
  · intro hneq
    have hf : files_differ l r = true := by
      cases hb : files_differ l r
      · exact absurd (hdiff.mp hb) hneq
      · rfl
    constructor
    · intro hup
      have hcond : (lp || decide (r.mtime ≤ l.mtime)) = true := by
        rcases hup with h | h
        · simp [h]
        · simp [h]
      have hpa' : planAction ad lp lf rf st p = some "upload" := by
        rw [hpa]; simp [hf, hcond]
      refine ⟨mem_plan_actions.mpr ⟨hord, hpa'⟩, ?_⟩
      intro a ha
      rw [mem_plan_actions] at ha
      have h2 := ha.2
      rw [hpa'] at h2
      exact (Option.some_inj.mp h2).symm
    · intro hdl
      have hcond : (lp || decide (r.mtime ≤ l.mtime)) = false := by
        rcases hdl with ⟨h1, h2⟩
        simp [h1]
        exact h2
      have hpa' : planAction ad lp lf rf st p = some "download" := by
        rw [hpa]; simp [hf, hcond]
      refine ⟨mem_plan_actions.mpr ⟨hord, hpa'⟩, ?_⟩
      intro a ha
      rw [mem_plan_actions] at ha
      have h2 := ha.2
      rw [hpa'] at h2
      exact (Option.some_inj.mp h2).symm

/-- Witness for C1: equal mtimes but different sizes differ, and with
`local_priority = false` the tie on mtime goes to upload. -/
theorem claim_C1_witness :
    ("upload", "a") ∈ plan_actions false false [("a", ⟨100, 10⟩)]
      [("a", ⟨100, 20⟩)] [] [] :=
  (((claim_C1 false false [("a", ⟨100, 10⟩)] [("a", ⟨100, 20⟩)] [] [] "a"
      ⟨100, 10⟩ ⟨100, 20⟩ (by decide) (by decide)).2
    (by simp)).1 (Or.inr (by decide))).1

/-- The prior-state condition of `_plan_actions` lines 202 and 210:
`prev and prev.get("local_exists") and prev.get("remote_exists")`. -/
def prevBoth (st : List (String × StateEntry)) (p : String) : Bool :=
  match lookupD st p with
  | some prev => prev.local_exists && prev.remote_exists
  | none => false

/-- C2: a local-only path is deleted locally exactly when the prior state
recorded both sides present and `allow_delete` holds; in every other case
it is uploaded.  The remote-only case is symmetric with
delete_remote/download. -/
theorem claim_C2 (ad lp : Bool) (lf rf : List (String × Meta))
    (st : List (String × StateEntry)) (dirty : List String) (p : String) :
    ((lookupD lf p).isSome = true → lookupD rf p = none →
      ((("delete_local", p) ∈ plan_actions ad lp lf rf st dirty ↔
          prevBoth st p = true ∧ ad = true) ∧
        (¬(prevBoth st p = true ∧ ad = true) →
          ("upload", p) ∈ plan_actions ad lp lf rf st dirty ∧
            ∀ a, (a, p) ∈ plan_actions ad lp lf rf st dirty → a = "upload"))) ∧
    (lookupD lf p = none → (lookupD rf p).isSome = true →
      ((("delete_remote", p) ∈ plan_actions ad lp lf rf st dirty ↔
          prevBoth st p = true ∧ ad = true) ∧
        (¬(prevBoth st p = true ∧ ad = true) →
          ("download", p) ∈ plan_actions ad lp lf rf st dirty ∧
            ∀ a, (a, p) ∈ plan_actions ad lp lf rf st dirty → a = "download"))) := by
  constructor
  · intro hl hr
    rcases Option.isSome_iff_exists.mp hl with ⟨l, hl'⟩
    have hkey : p ∈ keysOf lf := (lookupD_isSome_iff lf p).mp hl
    have hord : p ∈ orderedPaths lf rf dirty := by
      rw [mem_orderedPaths]
      refine Or.inr ?_
      unfold allPathsOf
      rw [List.mem_dedup, List.mem_append]
      exact Or.inl hkey
    have hpa : planAction ad lp lf rf st p =
        (if prevBoth st p = true then
          (if ad = true then some "delete_local" else some "upload")
         else some "upload") := by
      unfold planAction prevBoth
      rw [hl', hr]
      rcases hst : lookupD st p with _ | prev
      · simp
      · rfl
    constructor
    · constructor
      · intro hmem
        rw [mem_plan_actions] at hmem
        have h2 := hmem.2
        rw [hpa] at h2
        by_cases hb : prevBoth st p = true
        · by_cases hdel : ad = true
          · exact ⟨hb, hdel⟩
          · rw [if_pos hb, if_neg hdel] at h2; simp at h2
        · rw [if_neg hb] at h2; simp at h2
      · rintro ⟨hb, hdel⟩
        rw [mem_plan_actions]
        exact ⟨hord, by rw [hpa, if_pos hb, if_pos hdel]⟩
    · intro hnot
      have hpa' : planAction ad lp lf rf st p = some "upload" := by
        rw [hpa]
        by_cases hb : prevBoth st p = true
        · have hdel : ¬ ad = true := fun h => hnot ⟨hb, h⟩
          rw [if_pos hb, if_neg hdel]
        · rw [if_neg hb]
      refine ⟨mem_plan_actions.mpr ⟨hord, hpa'⟩, ?_⟩
      intro a ha
      rw [mem_plan_actions] at ha
      have h2 := ha.2
      rw [hpa'] at h2
      exact (Option.some_inj.mp h2).symm
  · intro hl hr
    rcases Option.isSome_iff_exists.mp hr with ⟨r, hr'⟩
    have hkey : p ∈ keysOf rf := (lookupD_isSome_iff rf p).mp hr
    have hord : p ∈ orderedPaths lf rf dirty := by
      rw [mem_orderedPaths]
      refine Or.inr ?_
      unfold allPathsOf
      rw [List.mem_dedup, List.mem_append]
      exact Or.inr hkey
    have hpa : planAction ad lp lf rf st p =
        (if prevBoth st p = true then
          (if ad = true then some "delete_remote" else some "download")
         else some "download") := by
      unfold planAction prevBoth
      rw [hl, hr']
      rcases hst : lookupD st p with _ | prev
      · simp
      · rfl
    constructor
    · constructor
      · intro hmem
        rw [mem_plan_actions] at hmem
        have h2 := hmem.2
        rw [hpa] at h2
        by_cases hb : prevBoth st p = true
        · by_cases hdel : ad = true
          · exact ⟨hb, hdel⟩
          · rw [if_pos hb, if_neg hdel] at h2; simp at h2
        · rw [if_neg hb] at h2; simp at h2
      · rintro ⟨hb, hdel⟩
        rw [mem_plan_actions]
        exact ⟨hord, by rw [hpa, if_pos hb, if_pos hdel]⟩
    · intro hnot
      have hpa' : planAction ad lp lf rf st p = some "download" := by
        rw [hpa]
        by_cases hb : prevBoth st p = true
        · have hdel : ¬ ad = true := fun h => hnot ⟨hb, h⟩
          rw [if_pos hb, if_neg hdel]
        · rw [if_neg hb]
      refine ⟨mem_plan_actions.mpr ⟨hord, hpa'⟩, ?_⟩
      intro a ha
      rw [mem_plan_actions] at ha
      have h2 := ha.2
      rw [hpa'] at h2
      exact (Option.some_inj.mp h2).symm

/-- Witness for C2: remote delete propagates to a local delete when the
prior state saw both sides and `allow_delete` is on. -/
theorem claim_C2_witness :
    ("delete_local", "b") ∈ plan_actions true false [("b", ⟨100, 10⟩)] []
      [("b", ⟨true, some 100, true, some 100⟩)] [] :=
  (((claim_C2 true false [("b", ⟨100, 10⟩)] []
      [("b", ⟨true, some 100, true, some 100⟩)] [] "b").1
    (by decide) (by decide)).1).mpr ⟨by decide, rfl⟩

theorem planStep_key {ad lp : Bool} {lf rf : List (String × Meta)}
    {st : List (String × StateEntry)} {q : String} {x : String × String}
    (h : planStep ad lp lf rf st q = some x) : x.2 = q := by
  unfold planStep at h
  rcases ha : planAction ad lp lf rf st q with _ | a <;> rw [ha] at h
  · exact Option.noConfusion h
  · rw [← Option.some_inj.mp h]

theorem map_snd_filterMap_planStep (ad lp : Bool) (lf rf : List (String × Meta))
    (st : List (String × StateEntry)) :
    ∀ l : List String,
      ((l.filterMap (planStep ad lp lf rf st)).map Prod.snd) =
        l.filter (fun p => (planAction ad lp lf rf st p).isSome) := by
  intro l
  induction l with
  | nil => rfl
  | cons q t ih =>
      rw [List.filterMap_cons, List.filter_cons]
      rcases hq : planAction ad lp lf rf st q with _ | a
      · have hstep : planStep ad lp lf rf st q = none := by
          unfold planStep; rw [hq]; rfl
        simp only [hstep, hq]
        simpa using ih
      · have hstep : planStep ad lp lf rf st q = some (a, q) := by
          unfold planStep; rw [hq]; rfl
        simp only [hstep, hq]
        simpa using ih

/-- C6 (counterexample): `_consume_dirty` hands the planner a Python `set`,
whose iteration order is unspecified rather than insertion order.  The two
enumerations `["b","a"]` and `["a","b"]` describe the same two-element set
(same members, no duplicates), yet they produce differently ordered action
lists, so the planner's output order is fixed by the set's enumeration
order, which Python does not tie to insertion order. -/
theorem claim_C6_counterexample :
    (["b", "a"] : List String).Nodup ∧
    (["b", "a"] : List String).Perm ["a", "b"] ∧
    plan_actions false false [("a", ⟨1, 1⟩), ("b", ⟨1, 1⟩)] [] [] ["b", "a"] =
      [("upload", "b"), ("upload", "a")] ∧
    plan_actions false false [("a", ⟨1, 1⟩), ("b", ⟨1, 1⟩)] [] [] ["a", "b"] =
      [("upload", "a"), ("upload", "b")] ∧
    ([("upload", "b"), ("upload", "a")] : List (String × String)) ≠
      [("upload", "a"), ("upload", "b")] := by decide

/-- C6 (amended): the planner iterates the dirty enumeration first and then
the remaining union of local and remote paths in sorted order, so the
planned list splits into a dirty-keyed part followed by a non-dirty-keyed
part whose keys are sorted; in particular every dirty path's action
precedes every non-dirty path's action. -/
theorem claim_C6_amended (ad lp : Bool) (lf rf : List (String × Meta))
    (st : List (String × StateEntry)) (dirty : List String) :
    ∃ pre post,
      plan_actions ad lp lf rf st dirty = pre ++ post ∧
      (∀ x ∈ pre, x.2 ∈ dirty) ∧
      (∀ x ∈ post, x.2 ∉ dirty) ∧
      List.Pairwise strRel (post.map Prod.snd) := by
  refine ⟨dirty.filterMap (planStep ad lp lf rf st),
    (List.insertionSort strRel
      ((allPathsOf lf rf).filter (fun p => decide (¬ p ∈ dirty)))).filterMap
      (planStep ad lp lf rf st), ?_, ?_, ?_, ?_⟩
  · unfold plan_actions orderedPaths
    rw [List.filterMap_append]
  · intro x hx
    rcases List.mem_filterMap.mp hx with ⟨q, hq, hstep⟩
    rw [planStep_key hstep]
    exact hq
  · intro x hx
    rcases List.mem_filterMap.mp hx with ⟨q, hq, hstep⟩
    rw [(List.perm_insertionSort strRel _).mem_iff, List.mem_filter] at hq
    rw [planStep_key hstep]
    simpa using hq.2
  · rw [map_snd_filterMap_planStep]
    exact List.Pairwise.sublist (List.filter_sublist _) (List.sorted_insertionSort strRel _)

/-- The loaded entry corresponding to a saved four-field entry: the same
fields plus a NULL hash. -/
def loadedOfEntry (e : StateEntry) : LoadedEntry :=
  { local_exists := e.local_exists
    local_mtime := e.local_mtime
    remote_exists := e.remote_exists
    remote_mtime := e.remote_mtime
    hash := none }

theorem entryOfRow_rowOfEntry (conn : ℤ) (pe : String × StateEntry) :
    entryOfRow (rowOfEntry conn pe) = (pe.1, loadedOfEntry pe.2) := by
  unfold entryOfRow rowOfEntry loadedOfEntry
  cases hle : pe.2.local_exists <;> cases hre : pe.2.remote_exists <;> simp

theorem lookupD_map_loadedOf (t : List (String × StateEntry)) (p : String) :
    (lookupD (t.map (fun pe => (pe.1, loadedOfEntry pe.2))) p).map stateFields =
      lookupD t p := by
  induction t with
  | nil => rfl
  | cons pe t ih =>
      rw [List.map_cons]
      unfold lookupD
      by_cases hp : pe.1 = p
      · rw [List.find?_cons_of_pos _ (by simpa using hp),
          List.find?_cons_of_pos _ (by simpa using hp)]
        rcases pe with ⟨k, e⟩
        cases e
        rfl
      · rw [List.find?_cons_of_neg _ (by simpa using hp),
          List.find?_cons_of_neg _ (by simpa using hp)]
        unfold lookupD at ih
        exact ih

/-- C9: saving a sync-state map and loading it back returns a map with the
same keys in the same order, each entry carrying exactly the four saved
fields (the loaded entry only adds the NULL hash column). -/
theorem claim_C9 (conn : ℤ) (entries : List (String × StateEntry))
    (db : List StateRow) :
    load_sync_state conn (save_sync_state conn entries db) =
      entries.map (fun pe => (pe.1, loadedOfEntry pe.2)) ∧
    keysOf (load_sync_state conn (save_sync_state conn entries db)) =
      keysOf entries ∧
    ∀ p, (lookupD (load_sync_state conn (save_sync_state conn entries db)) p).map
        stateFields = lookupD entries p := by
  have hmain : load_sync_state conn (save_sync_state conn entries db) =
      entries.map (fun pe => (pe.1, loadedOfEntry pe.2)) := by
    unfold load_sync_state save_sync_state
    rw [List.filterMap_append]
    have h1 : (db.filter (fun r => !(decide (r.connection_id = conn)))).filterMap
        (fun r => if r.connection_id = conn then some (entryOfRow r) else none) = [] := by
      rw [List.filterMap_eq_nil_iff]
      intro r hr
      rw [List.mem_filter] at hr
      have hne : ¬ r.connection_id = conn := by simpa using hr.2
      rw [if_neg hne]
    rw [h1, List.nil_append]
    induction entries with
    | nil => rfl
    | cons pe t ih =>
        rw [List.map_cons, List.filterMap_cons, List.map_cons]
        have hc : (rowOfEntry conn pe).connection_id = conn := rfl
        rw [if_pos hc, entryOfRow_rowOfEntry, ih]
  refine ⟨hmain, ?_, ?_⟩
  · rw [hmain]
    unfold keysOf
    rw [List.map_map]
    rfl
  · intro p
    rw [hmain]
    exact lookupD_map_loadedOf entries p

theorem lookupD_map_keyed {α : Type} (g : String → α) (l : List String) (p : String) :
    lookupD (l.map (fun q => (q, g q))) p = if p ∈ l then some (g p) else none := by
  induction l with
  | nil => simp [lookupD]
  | cons q t ih =>
      rw [List.map_cons]
      unfold lookupD
      by_cases hq : q = p
      · rw [List.find?_cons_of_pos _ (by simpa using hq)]
        subst hq
        simp
      · rw [List.find?_cons_of_neg _ (by simpa using hq)]
        unfold lookupD at ih
        rw [ih]
        by_cases hp : p ∈ t
        · rw [if_pos hp, if_pos (List.mem_cons_of_mem q hp)]
        · rw [if_neg hp, if_neg (by
            rw [List.mem_cons]
            rintro (h | h)
            · exact hq h.symm
            · exact hp h)]

/-- C10: every entry of a snapshot built by `_build_snapshot` has at least
one side present, and each side's mtime is non-null exactly when that side
exists. -/
theorem claim_C10 (lf rf : List (String × Meta)) (p : String) (e : StateEntry)
    (h : lookupD (build_snapshot lf rf) p = some e) :
    (e.local_exists || e.remote_exists) = true ∧
    (e.local_mtime.isSome = true ↔ e.local_exists = true) ∧
    (e.remote_mtime.isSome = true ↔ e.remote_exists = true) := by
  unfold build_snapshot at h
  rw [lookupD_map_keyed
    (fun path => ({ local_exists := (lookupD lf path).isSome
                    local_mtime := (lookupD lf path).map (fun m => m.mtime)
                    remote_exists := (lookupD rf path).isSome
                    remote_mtime := (lookupD rf path).map (fun m => m.mtime) } : StateEntry))
    (allPathsOf lf rf) p] at h
  by_cases hp : p ∈ allPathsOf lf rf
  · rw [if_pos hp] at h
    obtain rfl := Option.some_inj.mp h
    have hm : p ∈ keysOf lf ∨ p ∈ keysOf rf := by
      unfold allPathsOf at hp
      rw [List.mem_dedup, List.mem_append] at hp
      exact hp
    refine ⟨?_, ?_, ?_⟩
    · rcases hm with hm | hm
      · rw [(lookupD_isSome_iff lf p).mpr hm]
        simp
      · rw [(lookupD_isSome_iff rf p).mpr hm]
        simp
    · cases lookupD lf p <;> simp
    · cases lookupD rf p <;> simp
  · rw [if_neg hp] at h
    exact Option.noConfusion h

/-- Witness for C10: the snapshot of a tree with one local-only file. -/
theorem claim_C10_witness :
    ((true || false) = true) ∧
    ((some (1 : ℚ)).isSome = true ↔ true = true) ∧
    ((none : Option ℚ).isSome = true ↔ false = true) :=
  claim_C10 [("a", ⟨1, 2⟩)] [] "a" ⟨true, some 1, false, none⟩ (by decide)

/-- C4: when the local scan and prior-state load succeed, a cycle whose
session open, remote listing or action execution raises an exception ends
with status `Error` carrying the exception text, appends one error log
entry last, does not call `save_sync_state`, and raises nothing out of the
method; a cycle with no such exception saves a snapshot and ends `Running`. -/
theorem claim_C4 (inp : CycleInput) (ls : List (String × Meta))
    (st : List (String × StateEntry))
    (hscan : inp.scanRes = .ok ls) (hload : inp.loadRes = .ok st) :
    (∀ e, cycleFailure inp = some e →
      (syncCycle inp).savedState = none ∧
      (syncCycle inp).statusEvents.getLast? = some (Status.Error e) ∧
      (syncCycle inp).logs.getLast? = some ("error", "", e) ∧
      (syncCycle inp).raised = none) ∧
    (cycleFailure inp = none →
      (syncCycle inp).savedState.isSome = true ∧
      (syncCycle inp).statusEvents.getLast? = some Status.Running ∧
      (syncCycle inp).raised = none) := by
  rcases ho : inp.openRes with e0 | u
  · constructor
    · intro e he
      have he' : e0 = e := by
        unfold cycleFailure at he
        rw [hscan, hload, ho] at he
        exact Option.some_inj.mp he
      subst he'
      unfold syncCycle
      rw [hscan, hload, ho]
      exact ⟨rfl, rfl, rfl, rfl⟩
    · intro hnone
      unfold cycleFailure at hnone
      rw [hscan, hload, ho] at hnone
      exact Option.noConfusion hnone
  · rcases hl : inp.listRes with e0 | raw
    · constructor
      · intro e he
        have he' : e0 = e := by
          unfold cycleFailure at he
          rw [hscan, hload, ho, hl] at he
          exact Option.some_inj.mp he
        subst he'
        unfold syncCycle
        rw [hscan, hload, ho, hl]
        exact ⟨rfl, rfl, rfl, rfl⟩
      · intro hnone
        unfold cycleFailure at hnone
        rw [hscan, hload, ho, hl] at hnone
        exact Option.noConfusion hnone
    · rcases hx : execActions inp.exec
          (plan_actions inp.allow_delete inp.local_priority ls
            (filterIgnored inp.patterns raw) st inp.dirty)
          ls (filterIgnored inp.patterns raw) [] with ⟨failOpt, lf', rf', logs⟩
      constructor
      · intro e he
        unfold cycleFailure at he
        rw [hscan, hload, ho, hl] at he
        have he2 : (execActions inp.exec
            (plan_actions inp.allow_delete inp.local_priority ls
              (filterIgnored inp.patterns raw) st inp.dirty)
            ls (filterIgnored inp.patterns raw) []).1 = some e := he
        rw [hx] at he2
        have he' : failOpt = some e := he2
        subst he'
        simp only [syncCycle, hscan, hload, ho, hl, hx]
        simp [List.getLast?_concat]
      · intro hnone
        unfold cycleFailure at hnone
        rw [hscan, hload, ho, hl] at hnone
        have he2 : (execActions inp.exec
            (plan_actions inp.allow_delete inp.local_priority ls
              (filterIgnored inp.patterns raw) st inp.dirty)
            ls (filterIgnored inp.patterns raw) []).1 = none := hnone
        rw [hx] at he2
        have he' : failOpt = none := he2
        subst he'
        simp only [syncCycle, hscan, hload, ho, hl, hx]
        simp [List.getLast?_concat]

/-- Witness for C4: a cycle whose SFTP session open fails with
"conn refused" reports the error and saves nothing. -/
theorem claim_C4_witness :
    (syncCycle ⟨false, false, [], [], .ok [], .ok [], .error "conn refused",
        .ok [], fun _ _ => .fileError "unused"⟩).savedState = none ∧
    (syncCycle ⟨false, false, [], [], .ok [], .ok [], .error "conn refused",
        .ok [], fun _ _ => .fileError "unused"⟩).statusEvents.getLast? =
      some (Status.Error "conn refused") ∧
    (syncCycle ⟨false, false, [], [], .ok [], .ok [], .error "conn refused",
        .ok [], fun _ _ => .fileError "unused"⟩).logs.getLast? =
      some ("error", "", "conn refused") ∧
    (syncCycle ⟨false, false, [], [], .ok [], .ok [], .error "conn refused",
        .ok [], fun _ _ => .fileError "unused"⟩).raised = none :=
  (claim_C4 ⟨false, false, [], [], .ok [], .ok [], .error "conn refused",
      .ok [], fun _ _ => .fileError "unused"⟩ [] [] rfl rfl).1
    "conn refused" rfl

/-- C7 (counterexample): an exception in the local tree walk is NOT handled
like a connection error: `_scan_local` runs before the `try` block of
`_sync_cycle`, so the exception propagates out of the cycle; no `Error`
status is reported and no error log entry is appended. -/
theorem claim_C7_counterexample :
    (syncCycle ⟨false, false, [], [], .error "walk failed", .ok [], .ok (),
        .ok [], fun _ _ => .fileError "unused"⟩).raised = some "walk failed" ∧
    (syncCycle ⟨false, false, [], [], .error "walk failed", .ok [], .ok (),
        .ok [], fun _ _ => .fileError "unused"⟩).statusEvents = [Status.Syncing] ∧
    (syncCycle ⟨false, false, [], [], .error "walk failed", .ok [], .ok (),
        .ok [], fun _ _ => .fileError "unused"⟩).logs = [] ∧
    (syncCycle ⟨false, false, [], [], .error "walk failed", .ok [], .ok (),
        .ok [], fun _ _ => .fileError "unused"⟩).savedState = none :=
  ⟨rfl, rfl, rfl, rfl⟩

/-- C7 (amended): exceptions from the SFTP session open, the remote
listing, or escaping action execution never propagate out of the cycle
(they are converted to an `Error` status and a log entry); but exceptions
raised by the local tree walk or by loading the prior sync-state do
propagate out of `_sync_cycle` unhandled, with no `Error` status and no
log entry. -/
theorem claim_C7_amended (inp : CycleInput) :
    (∀ ls st, inp.scanRes = .ok ls → inp.loadRes = .ok st →
      (syncCycle inp).raised = none) ∧
    (∀ e, inp.scanRes = .error e →
      (syncCycle inp).raised = some e ∧
      (syncCycle inp).statusEvents = [Status.Syncing] ∧
      (syncCycle inp).logs = [] ∧ (syncCycle inp).savedState = none) ∧
    (∀ e ls, inp.scanRes = .ok ls → inp.loadRes = .error e →
      (syncCycle inp).raised = some e ∧
      (syncCycle inp).statusEvents = [Status.Syncing] ∧
      (syncCycle inp).logs = [] ∧ (syncCycle inp).savedState = none) := by
  refine ⟨?_, ?_, ?_⟩
  · intro ls st hscan hload
    rcases ho : inp.openRes with e0 | u
    · simp only [syncCycle, hscan, hload, ho]
    · rcases hl : inp.listRes with e0 | raw
      · simp only [syncCycle, hscan, hload, ho, hl]
      · rcases hx : execActions inp.exec
            (plan_actions inp.allow_delete inp.local_priority ls
              (filterIgnored inp.patterns raw) st inp.dirty)
            ls (filterIgnored inp.patterns raw) [] with ⟨failOpt, lf', rf', logs⟩
        rcases failOpt with _ | e0 <;>
          simp only [syncCycle, hscan, hload, ho, hl, hx]
  · intro e hscan
    simp only [syncCycle, hscan]
    simp
  · intro e ls hscan hload
    simp only [syncCycle, hscan, hload]
    simp

/-- Witness for C7 (amended): a failing prior-state load propagates. -/
theorem claim_C7_witness :
    (syncCycle ⟨false, false, [], [], .ok [], .error "db locked", .ok (),
        .ok [], fun _ _ => .fileError "unused"⟩).raised = some "db locked" ∧
    (syncCycle ⟨false, false, [], [], .ok [], .error "db locked", .ok (),
        .ok [], fun _ _ => .fileError "unused"⟩).statusEvents = [Status.Syncing] ∧
    (syncCycle ⟨false, false, [], [], .ok [], .error "db locked", .ok (),
        .ok [], fun _ _ => .fileError "unused"⟩).logs = [] ∧
    (syncCycle ⟨false, false, [], [], .ok [], .error "db locked", .ok (),
        .ok [], fun _ _ => .fileError "unused"⟩).savedState = none :=
  (claim_C7_amended ⟨false, false, [], [], .ok [], .error "db locked", .ok (),
      .ok [], fun _ _ => .fileError "unused"⟩).2.2 "db locked" [] rfl rfl

/-- C8 (counterexample): with the anchored rule `/secret.txt`, the path
`sub/secret.txt` IS ignored although only its basename — not its full
relative path — matches the stripped pattern: the basename fallback of
`should_ignore` also applies to anchored rules. -/
theorem claim_C8_counterexample :
    should_ignore ["/secret.txt"] "sub/secret.txt" = true ∧
    fnmatch "sub/secret.txt" "secret.txt" = false ∧
    fnmatch (lastComponent '/' "sub/secret.txt") "secret.txt" = true := by decide

theorem charListStartsWith_dropWhile_slash (l : List Char) :
    charListStartsWith (l.dropWhile (fun c => (['/']).contains c)) ['/'] = false := by
  induction l with
  | nil => rfl
  | cons c t ih =>
      by_cases hc : c = '/'
      · rw [List.dropWhile_cons, if_pos (by simp [hc])]
        exact ih
      · rw [List.dropWhile_cons, if_neg (by simp [hc])]
        simp [charListStartsWith, hc]

/-- C8 (amended): a pattern beginning with `/` has all leading slashes
stripped and is then treated exactly like the same pattern written without
them — matched against both the full relative path and the basename; the
leading `/` does not restrict matching to the full relative path. -/
theorem claim_C8_amended (r x : String) (m : Bool)
    (hq : strStartsWith (lstripSet ['/'] r) "!" = false) :
    applyRule x m (String.mk ('/' :: r.data)) = applyRule x m (lstripSet ['/'] r) := by
  have hslash : lstripSet ['/'] (String.mk ('/' :: r.data)) = lstripSet ['/'] r := by
    unfold lstripSet
    congr 1
  have hanchor : strStartsWith (String.mk ('/' :: r.data)) "/" = true := by
    simp [strStartsWith, charListStartsWith]
  have hnotneg : strStartsWith (String.mk ('/' :: r.data)) "!" = false := by
    simp [strStartsWith, charListStartsWith]
  have hnoslash : strStartsWith (lstripSet ['/'] r) "/" = false :=
    charListStartsWith_dropWhile_slash r.data
  simp only [applyRule, hnotneg, hq, hanchor, hslash, hnoslash, Bool.false_eq_true,
    if_false, if_true]

/-- Witness for C8 (amended): the anchored `/secret.txt` and the plain
`secret.txt` rule transform the matched flag identically. -/
theorem claim_C8_witness :
    applyRule "sub/secret.txt" false (String.mk ('/' :: "secret.txt".data)) =
      applyRule "sub/secret.txt" false (lstripSet ['/'] "secret.txt") :=
  claim_C8_amended "secret.txt" "sub/secret.txt" false (by decide)

/-- Witness for C6 (amended): the dirty-first split at a concrete input. -/
theorem claim_C6_witness :
    ∃ pre post,
      plan_actions false false [("a", ⟨1, 1⟩)] [] [] ["a"] = pre ++ post ∧
      (∀ x ∈ pre, x.2 ∈ (["a"] : List String)) ∧
      (∀ x ∈ post, x.2 ∉ (["a"] : List String)) ∧
      List.Pairwise strRel (post.map Prod.snd) :=
  claim_C6_amended false false [("a", ⟨1, 1⟩)] [] [] ["a"]
